import Mathlib

/-!
Verification of the GraphML-to-Neo4J migration script
(`migrate/graphml_to_neo4j.py`).

The Python code is shallowly embedded: Python values that can occur as
GraphML attribute values are the inductive `PyVal`; Python dicts are
insertion-ordered association lists; the Neo4J store is an explicit
`Store` state and every Cypher query issued by the script is translated
into a pure state transformation or a pure read.  Machine floats are
modelled as rationals (none of the verified properties depend on
rounding behaviour).
-/

namespace Migrate

mutual

/-- Python values occurring as GraphML node/edge attribute values:
strings, ints, floats (modelled as rationals), booleans, `None`,
lists and dicts (insertion-ordered). -/
inductive PyVal where
  | str : String → PyVal
  | int : Int → PyVal
  | float : Rat → PyVal
  | bool : Bool → PyVal
  | none : PyVal
  | list : PyValList → PyVal
  | dict : PyKVList → PyVal
deriving DecidableEq, Repr

/-- A list of Python values (payload of `PyVal.list`). -/
inductive PyValList where
  | nil : PyValList
  | cons : PyVal → PyValList → PyValList
deriving DecidableEq, Repr

/-- A key-value list (payload of `PyVal.dict`, insertion-ordered). -/
inductive PyKVList where
  | nil : PyKVList
  | cons : String → PyVal → PyKVList → PyKVList
deriving DecidableEq, Repr

end

/-- A Python dict with string keys, as an insertion-ordered association
list (real Python dicts never hold a key twice; the functions below are
nevertheless total on arbitrary lists). -/
abbrev PyDict := List (String × PyVal)

/-- Lookup of a key in a dict (first occurrence), Python `d.get(k)`. -/
def dictLookup (k : String) : PyDict → Option PyVal
  | [] => Option.none
  | (k', v) :: rest => if k' = k then some v else dictLookup k rest

/-- Python `d[k] = v`: replace the value at the first occurrence of `k`
keeping its position, or append `(k, v)` when `k` is absent. -/
def dictSet (d : PyDict) (k : String) (v : PyVal) : PyDict :=
  match d with
  | [] => [(k, v)]
  | (k', v') :: rest =>
      if k' = k then (k', v) :: rest else (k', v') :: dictSet rest k v

/-- Python `d.get(k, default)`. -/
def dictGetD (d : PyDict) (k : String) (dflt : PyVal) : PyVal :=
  (dictLookup k d).getD dflt

/-! ### Rendering of numbers and JSON serialization

`json.dumps` and `str` are Python builtins used by `prepare_node_data`
and `prepare_edge_data`; they are modelled here.  The decimal rendering
of a rational is a bounded-precision model of CPython float `repr`;
nothing proved below depends on its digits. -/

/-- Decimal digits of the fractional part `r / d`, at most `fuel` of
them (model of the finite decimal expansion of a CPython float). -/
def fracDigits : Nat → Nat → Nat → List Nat
  | _, _, 0 => []
  | 0, _, _ + 1 => []
  | r, d, fuel + 1 =>
      let r10 := r * 10
      r10 / d :: fracDigits (r10 % d) d fuel

/-- Decimal rendering of a rational, modelling Python `str` on a float
(always shows at least one fractional digit, as in `str(2.0) = "2.0"`). -/
def ratRepr (q : Rat) : String :=
  let sign := if q < 0 then "-" else ""
  let n := q.num.natAbs
  let d := q.den
  let ds := fracDigits (n % d) d 17
  let frac := if ds.isEmpty then "0" else String.join (ds.map (fun x => toString x))
  sign ++ toString (n / d) ++ "." ++ frac

/-- Escaping of a string body for JSON output (backslash and quote). -/
def jsonEscape (s : String) : String :=
  String.join (s.data.map (fun c =>
    if c = '\\' then "\\\\" else if c = '"' then "\\\"" else String.singleton c))

mutual

/-- Model of Python `json.dumps` on a value: strings quoted, numbers
plain, booleans lowercase, `None` as `null`, lists bracketed with
`", "` separators, dicts in insertion order (so the rendering is a
function of the value: deterministic). -/
def pyJson : PyVal → String
  | .str s => "\"" ++ jsonEscape s ++ "\""
  | .int n => toString n
  | .float q => ratRepr q
  | .bool b => if b then "true" else "false"
  | .none => "null"
  | .list xs => "[" ++ pyJsonList xs ++ "]"
  | .dict kvs => "\x7b" ++ pyJsonKVs kvs ++ "\x7d"

/-- Comma-separated JSON rendering of a value list. -/
def pyJsonList : PyValList → String
  | .nil => ""
  | .cons v .nil => pyJson v
  | .cons v rest => pyJson v ++ ", " ++ pyJsonList rest

/-- Comma-separated JSON rendering of a key-value list. -/
def pyJsonKVs : PyKVList → String
  | .nil => ""
  | .cons k v .nil => "\"" ++ jsonEscape k ++ "\": " ++ pyJson v
  | .cons k v rest =>
      "\"" ++ jsonEscape k ++ "\": " ++ pyJson v ++ ", " ++ pyJsonKVs rest

end

/-- Model of Python `str` on a value.  The `list`/`dict` branches are
unreachable from the coercion loop (those are handled by the
`json.dumps` branch first) and are given the JSON rendering. -/
def pyStr : PyVal → String
  | .str s => s
  | .int n => toString n
  | .float q => ratRepr q
  | .bool b => if b then "True" else "False"
  | .none => "None"
  | .list xs => pyJson (.list xs)
  | .dict kvs => pyJson (.dict kvs)

/-! ### Python `float(...)` parsing model -/

/-- Digits of a character list read as a decimal natural number;
`Option.none` when a non-digit appears or the list is empty. -/
def digitsToNat : List Char → Option Nat
  | [] => Option.none
  | cs => cs.foldl (fun acc c =>
      match acc with
      | Option.none => Option.none
      | some n => if c.isDigit then some (n * 10 + (c.toNat - 48)) else Option.none)
      (some 0)

/-- Parse an unsigned decimal `digits[.digits]` into a rational. -/
def parseUnsignedDecimal (cs : List Char) : Option Rat :=
  match cs.splitOn '.' with
  | [intPart] =>
      (digitsToNat intPart).map (fun n => (n : Rat))
  | [intPart, fracPart] =>
      if intPart.isEmpty ∧ fracPart.isEmpty then Option.none
      else
        let ip : Option Nat := if intPart.isEmpty then some 0 else digitsToNat intPart
        let fp : Option Nat := if fracPart.isEmpty then some 0 else digitsToNat fracPart
        match ip, fp with
        | some i, some f => some ((i : Rat) + (f : Rat) / ((10 : Rat) ^ fracPart.length))
        | _, _ => Option.none
  | _ => Option.none

/-- Parse a signed decimal string, modelling Python `float(s)` on the
plain decimal forms (no exponent/inf/nan forms; on those this model
returns `Option.none`, which only makes the `1.0` default fire — the
direction all verified properties are stated in). -/
def parseFloat (s : String) : Option Rat :=
  match s.data with
  | '-' :: rest => (parseUnsignedDecimal rest).map (fun q => -q)
  | '+' :: rest => parseUnsignedDecimal rest
  | cs => parseUnsignedDecimal cs

/-- Model of Python `float(x)` on an attribute value: parse for strings,
identity/widening for numbers and booleans, failure (`TypeError` /
`ValueError`) as `Option.none`. -/
def pyFloat : PyVal → Option Rat
  | .str s => parseFloat s
  | .int n => some (n : Rat)
  | .float q => some q
  | .bool b => some (if b then 1 else 0)
  | _ => Option.none

/-! ### Attribute coercion (`prepare_node_data` / `prepare_edge_data`) -/

/-- Body of the per-value coercion loop shared by `prepare_node_data`
and `prepare_edge_data`: `json.dumps` for lists and dicts, `""` for
`None`, `str(value)` otherwise. -/
def coerceVal : PyVal → PyVal
  | .list xs => .str (pyJson (.list xs))
  | .dict kvs => .str (pyJson (.dict kvs))
  | .none => .str ""
  | v => .str (pyStr v)

/-- `prepare_node_data(node_id, node_attrs)`: copy the attribute dict,
set `entity_id` to the node id, then coerce every value in place. -/
def prepare_node_data (node_id : String) (node_attrs : PyDict) : PyDict :=
  let node_data := dictSet node_attrs "entity_id" (.str node_id)
  node_data.map (fun p => (p.1, coerceVal p.2))

/-- `prepare_edge_data(edge_attrs)`: copy the attribute dict, coerce
every value, then force `weight` to a float (`float(...)` on the
coerced value, defaulting to `1.0` on absence or parse failure). -/
def prepare_edge_data (edge_attrs : PyDict) : PyDict :=
  let edge_data := edge_attrs.map (fun p => (p.1, coerceVal p.2))
  match dictLookup "weight" edge_data with
  | some v =>
      match pyFloat v with
      | some q => dictSet edge_data "weight" (.float q)
      | Option.none => dictSet edge_data "weight" (.float 1)
  | Option.none => dictSet edge_data "weight" (.float 1)

/-- The batch node-migration loop stores, in addition to the prepared
node data, an `_entity_type` property holding
`node_data.get("entity_type", "Entity")` (the originally intended
dynamic-label query is built and then immediately overwritten by a
simplified `MERGE`/`SET` query, but the extra dict entry remains in the
data sent to the store). -/
def batchNodeRecord (node_id : String) (node_attrs : PyDict) : PyDict :=
  let node_data := prepare_node_data node_id node_attrs
  dictSet node_data "_entity_type" (dictGetD node_data "entity_type" (.str "Entity"))

/-! ### Graph model and edge canonicalization -/

/-- One edge of the loaded graph: endpoint ids (GraphML node ids are
strings) and the attribute dict. -/
structure Edge where
  source : String
  target : String
  attrs : PyDict
deriving DecidableEq, Repr

/-- The in-memory graph produced by `nx.read_graphml`: nodes with
attribute dicts, an ordered edge sequence, and a directedness flag.
The edge sequence may repeat an unordered endpoint pair (the migration
code itself guards against this). -/
structure Graph where
  nodes : List (String × PyDict)
  edges : List Edge
  directed : Bool
deriving DecidableEq, Repr

/-- Python string comparison on char lists: lexicographic by code
point. -/
def charListLe : List Char → List Char → Bool
  | [], _ => true
  | _ :: _, [] => false
  | a :: as, b :: bs =>
      if a.toNat < b.toNat then true
      else if b.toNat < a.toNat then false
      else charListLe as bs

/-- Python `str(source) <= str(target)`: lexicographic comparison by
code point. -/
def strLe (a b : String) : Bool := charListLe a.data b.data

/-- Normalization of one edge: keep the endpoints if
`source <= target`, otherwise swap them (attributes ride along). -/
def normEdge (e : Edge) : Edge :=
  if strLe e.source e.target then e
  else { source := e.target, target := e.source, attrs := e.attrs }

/-- The `(source, target)` dedup key of an edge. -/
def ekey (e : Edge) : String × String := (e.source, e.target)

/-- The dedup loop over `normalized_edges`: a `unique_edges` dict keyed
by `(source, target)` is filled keeping only the first occurrence of
each key; Python dicts preserve insertion order, so the output order is
the order of first occurrences.  `seen` is the set of keys already in
the dict. -/
def dedupeEdges : List Edge → List (String × String) → List Edge
  | [], _ => []
  | e :: rest, seen =>
      if ekey e ∈ seen then dedupeEdges rest seen
      else e :: dedupeEdges rest (ekey e :: seen)

/-- Edge canonicalization for undirected graphs, as performed by both
`migrate_edges` and `migrate_edges_single`: normalize every edge's
direction, then drop duplicate `(source, target)` keys keeping the
first occurrence. -/
def canonicalizeEdges (es : List Edge) : List Edge :=
  dedupeEdges (es.map normEdge) []

/-- The edge list actually migrated: canonicalized when the graph is
undirected, unchanged when directed. -/
def migratedEdgeList (g : Graph) : List Edge :=
  if g.directed then g.edges else canonicalizeEdges g.edges

/-! ### The Neo4J store model

Nodes carry a stable internal id (`nid`), their labels and a property
map; relationships reference endpoint `nid`s.  Each Cypher query issued
by the script is translated into a pure function on `Store`. -/

/-- One stored Neo4J node. -/
structure SNode where
  nid : Nat
  labels : List String
  props : PyDict
deriving DecidableEq, Repr

/-- One stored Neo4J relationship. -/
structure SRel where
  src : Nat
  tgt : Nat
  typ : String
  props : PyDict
deriving DecidableEq, Repr

/-- The Neo4J database state: a fresh-id counter, the stored nodes (in
store order, used by `collect`) and the stored relationships. -/
structure Store where
  counter : Nat
  nodes : List SNode
  rels : List SRel
deriving DecidableEq, Repr

/-- Does a stored node carry the workspace label and the given
`entity_id` (the match pattern `(n:ws with entity_id = id)`)? -/
def matchesWsId (ws id : String) (n : SNode) : Bool :=
  ws ∈ n.labels ∧ dictLookup "entity_id" n.props = some (.str id)

/-- First stored node matching workspace label and `entity_id`,
returning its internal id (the `MATCH (n:ws with entity_id)` lookup). -/
def findWsNode (s : Store) (ws id : String) : Option Nat :=
  (s.nodes.find? (matchesWsId ws id)).map SNode.nid

/-- `SET n += data` on a property map: each entry of `data` is written
in order. -/
def propsUpdate (props data : PyDict) : PyDict :=
  data.foldl (fun acc p => dictSet acc p.1 p.2) props

/-- One `MERGE (n:ws with entity_id = id) SET n += data` step: update
the first matching node's properties, or create a fresh node carrying
the workspace label, `entity_id`, and the supplied data. -/
def mergeNode (ws id : String) (data : PyDict) (s : Store) : Store :=
  match s.nodes.find? (matchesWsId ws id) with
  | some n =>
      { s with nodes := s.nodes.map (fun m =>
          if m.nid = n.nid then { m with props := propsUpdate m.props data } else m) }
  | Option.none =>
      { s with
        counter := s.counter + 1
        nodes := s.nodes ++
          [{ nid := s.counter, labels := [ws],
             props := propsUpdate [("entity_id", .str id)] data }] }

/-- One `MERGE (a)-[r:DIRECTED]->(b) SET r += props` step between two
already-matched nodes: update the first existing `DIRECTED`
relationship with these endpoints, or create it. -/
def mergeRel (a b : Nat) (data : PyDict) (s : Store) : Store :=
  match s.rels.find? (fun r => r.typ = "DIRECTED" ∧ r.src = a ∧ r.tgt = b) with
  | some r0 =>
      { s with rels := s.rels.map (fun r =>
          if r = r0 then { r with props := propsUpdate r.props data } else r) }
  | Option.none =>
      { s with rels := s.rels ++ [{ src := a, tgt := b, typ := "DIRECTED", props := data }] }

/-- One row of the edge query: `MATCH` both endpoints by workspace
label and `entity_id`, then `MERGE`/`SET` the relationship; when either
`MATCH` finds no node the row yields nothing and the store is
untouched. -/
def applyEdgeItem (ws : String) (s : Store) (e : Edge) : Store :=
  match findWsNode s ws e.source, findWsNode s ws e.target with
  | some a, some b => mergeRel a b (prepare_edge_data e.attrs) s
  | _, _ => s

/-- One row of the batch node query / one `migrate_nodes_single`
query: merge by `entity_id` and write the supplied record. -/
def applyNodeItem (ws : String) (record : String × PyDict → PyDict)
    (s : Store) (n : String × PyDict) : Store :=
  mergeNode ws n.1 (record n) s

/-- Sequential fixed-size chunking of a work list (`range(0, len, bs)`
slicing). -/
def chunks (bs : Nat) : List α → List (List α)
  | [] => []
  | x :: rest =>
      match bs with
      | 0 => []
      | b + 1 => (x :: rest).take (b + 1) :: chunks (b + 1) (rest.drop b)
termination_by l => l.length
decreasing_by
  simp only [List.length_cons, List.length_drop]
  exact Nat.lt_succ_of_le (Nat.sub_le rest.length b)

/-- `migrate_nodes`: chunk the node list (batch size 100 in the
script; the chunk size is a parameter here) and, chunk by chunk, run
the `UNWIND`-`MERGE`-`SET` query whose rows execute in order; each row
writes the prepared node data plus the `_entity_type` extra entry. -/
def migrate_nodes (ws : String) (bs : Nat) (g : Graph) (s : Store) : Store :=
  (chunks bs g.nodes).foldl
    (fun st batch => batch.foldl (applyNodeItem ws (fun n => batchNodeRecord n.1 n.2)) st) s

/-- `migrate_nodes_single`: one `MERGE`-`SET` query per node, writing
only the prepared node data. -/
def migrate_nodes_single (ws : String) (g : Graph) (s : Store) : Store :=
  g.nodes.foldl (applyNodeItem ws (fun n => prepare_node_data n.1 n.2)) s

/-- `migrate_edges`: canonicalize (undirected case), chunk (batch size
50 in the script), and run the `UNWIND`-`MATCH`-`MATCH`-`MERGE` query
whose rows execute in order. -/
def migrate_edges (ws : String) (bs : Nat) (g : Graph) (s : Store) : Store :=
  (chunks bs (migratedEdgeList g)).foldl
    (fun st batch => batch.foldl (applyEdgeItem ws) st) s

/-- `migrate_edges_single`: canonicalize (undirected case) and run one
`MATCH`-`MATCH`-`MERGE` query per edge. -/
def migrate_edges_single (ws : String) (g : Graph) (s : Store) : Store :=
  (migratedEdgeList g).foldl (applyEdgeItem ws) s

/-! ### Workspace clearing, duplicate reconciliation, verification -/

/-- Is `i` the internal id of a stored node carrying the workspace
label? -/
def isWsNid (s : Store) (ws : String) (i : Nat) : Bool :=
  s.nodes.any (fun n => n.nid = i ∧ ws ∈ n.labels)

/-- `clear_workspace`: delete every relationship touching a
workspace-labelled node, then delete the workspace-labelled nodes. -/
def clear_workspace (ws : String) (s : Store) : Store :=
  { s with
    nodes := s.nodes.filter (fun n => ws ∉ n.labels)
    rels := s.rels.filter (fun r => ¬(isWsNid s ws r.src ∨ isWsNid s ws r.tgt)) }

/-- Scan of the node-duplicate query: group workspace nodes by their
`entity_id` value (in store order) and return the internal ids of every
group member after the first — the nodes `DETACH DELETE`d by
`cleanup_duplicates`. -/
def dupNodeScan (ws : String) : List SNode → List (Option PyVal) → List Nat
  | [], _ => []
  | n :: rest, seen =>
      if ws ∈ n.labels then
        let k := dictLookup "entity_id" n.props
        if k ∈ seen then n.nid :: dupNodeScan ws rest seen
        else dupNodeScan ws rest (k :: seen)
      else dupNodeScan ws rest seen

/-- The node half of `cleanup_duplicates`: `DETACH DELETE` every
workspace node that shares its `entity_id` with an earlier workspace
node (relationships touching a deleted node disappear with it). -/
def cleanupDupNodes (ws : String) (s : Store) : Store :=
  let del := dupNodeScan ws s.nodes []
  { s with
    nodes := s.nodes.filter (fun n => n.nid ∉ del)
    rels := s.rels.filter (fun r => r.src ∉ del ∧ r.tgt ∉ del) }

/-- Scan of the relationship-duplicate query: among `DIRECTED`
relationships between workspace nodes, keep only the first per endpoint
pair; every other relationship is untouched. -/
def dupRelScan (isWs : Nat → Bool) : List SRel → List (Nat × Nat) → List SRel
  | [], _ => []
  | r :: rest, seen =>
      if r.typ = "DIRECTED" ∧ isWs r.src ∧ isWs r.tgt then
        if (r.src, r.tgt) ∈ seen then dupRelScan isWs rest seen
        else r :: dupRelScan isWs rest ((r.src, r.tgt) :: seen)
      else r :: dupRelScan isWs rest seen

/-- The relationship half of `cleanup_duplicates`. -/
def cleanupDupRels (ws : String) (s : Store) : Store :=
  { s with rels := dupRelScan (isWsNid s ws) s.rels [] }

/-- `cleanup_duplicates`: drop duplicate workspace nodes (keeping the
first of each `entity_id` group), then drop duplicate `DIRECTED`
relationships (keeping the first per endpoint pair). -/
def cleanup_duplicates (ws : String) (s : Store) : Store :=
  cleanupDupRels ws (cleanupDupNodes ws s)

/-- `create_indexes` only creates a lookup index (`CREATE INDEX ... IF
NOT EXISTS`); it does not change any stored node or relationship. -/
def create_indexes (s : Store) : Store := s

/-- The verifier's node-count query: `MATCH (n:ws) RETURN count(n)`. -/
def wsNodeCount (ws : String) (s : Store) : Nat :=
  (s.nodes.filter (fun n => ws ∈ n.labels)).length

/-- The verifier's edge-count query:
`MATCH (a:ws)-[r:DIRECTED]->(b:ws) RETURN count(r)`. -/
def wsEdgeCount (ws : String) (s : Store) : Nat :=
  (s.rels.filter (fun r =>
    r.typ = "DIRECTED" ∧ isWsNid s ws r.src ∧ isWsNid s ws r.tgt)).length

/-- The verifier's duplicate query: the number of distinct `entity_id`
values shared by more than one workspace node (`count(id)` in Cypher
skips the `null` group, hence the `isSome` guard). -/
def duplicateNodeCount (ws : String) (s : Store) : Nat :=
  let ids := (s.nodes.filter (fun n => ws ∈ n.labels)).map
    (fun n => dictLookup "entity_id" n.props)
  (ids.dedup.filter (fun k => k.isSome ∧ 1 < ids.count k)).length

/-- `verify_migration`: three read-only queries, then
`node_match and edge_match and no_duplicates` where the expected edge
count is `original_graph.number_of_edges()` — the raw length of the
loaded edge sequence, not the canonicalized length. -/
def verify_migration (ws : String) (s : Store) (g : Graph) : Bool :=
  (wsNodeCount ws s == g.nodes.length) &&
  (wsEdgeCount ws s == g.edges.length) &&
  (duplicateNodeCount ws s == 0)

/-! ### Connection and the whole run -/

/-- `connect`, translated from the source: build the driver and probe
one session.  `outcomes` lists what each successive connection attempt
would return were it made; the source makes exactly one attempt, prints
the failure and re-raises.  On success the number of attempts consumed
is returned. -/
def connect (outcomes : List Bool) : Except String Nat :=
  match outcomes with
  | [] => Except.error "Failed to connect to Neo4J"
  | ok :: _ =>
      if ok then Except.ok 1 else Except.error "Failed to connect to Neo4J"

/-- The inputs determining one run of `migrate()` + `main()`:
whether the one connection attempt succeeds, the loader outcome
(`Option.none` models a raised `load_graphml` error), the CLI flags,
the workspace label and the initial store contents. -/
structure RunInput where
  connectOk : Bool
  load : Option Graph
  clearFlag : Bool
  singleMode : Bool
  ws : String
  store : Store
deriving DecidableEq, Repr

/-- `migrate()`: connect, load, optionally clear, migrate nodes then
edges (batch sizes 100 and 50, or single mode), reconcile duplicates,
create indexes, verify.  `Option.none` models an exception escaping
`migrate` (connection or load failure); otherwise the final store and
the verification verdict are produced — the verdict is only printed,
`migrate` returns normally either way. -/
def runPipeline (inp : RunInput) : Option (Store × Bool) :=
  if inp.connectOk then
    match inp.load with
    | Option.none => Option.none
    | some g =>
        let s0 := if inp.clearFlag then clear_workspace inp.ws inp.store else inp.store
        let s1 := if inp.singleMode then migrate_nodes_single inp.ws g s0
                  else migrate_nodes inp.ws 100 g s0
        let s2 := if inp.singleMode then migrate_edges_single inp.ws g s1
                  else migrate_edges inp.ws 50 g s1
        let s3 := create_indexes (cleanup_duplicates inp.ws s2)
        some (s3, verify_migration inp.ws s3 g)
  else Option.none

/-- `main()`: run `migrate()` under `asyncio.run`; any exception is
caught and turned into `sys.exit(1)`, a normal return reaches the end
of `main` and the process exits 0. -/
def exitCode (inp : RunInput) : Nat :=
  if (runPipeline inp).isSome then 0 else 1

/-! ### Heap model of the preparation functions

For the frame property of `prepare_node_data` / `prepare_edge_data` the
Python dict mutations are replayed against an explicit heap: addresses
are indices, `dict(attrs)` allocates a fresh address holding a copy,
and every subsequent statement mutates the dict at an address. -/

/-- A heap of Python dict objects; an address is an index. -/
abbrev Heap := List PyDict

/-- Dereference an address (absent addresses read as an empty dict). -/
def heapGet (h : Heap) (a : Nat) : PyDict := h.getD a []

/-- Mutate the dict object at address `c` in place. -/
def heapModify (h : Heap) (c : Nat) (f : PyDict → PyDict) : Heap :=
  h.set c (f (heapGet h c))

/-- `prepare_node_data` replayed on the heap: `dict(node_attrs)`
allocates a copy at a fresh address, then `entity_id` is stored and the
coercion loop rewrites each value, all at the fresh address.  Returns
the new heap and the address of the result dict. -/
def prepareNodeDataHeap (h : Heap) (a : Nat) (node_id : String) : Heap × Nat :=
  let c := h.length
  let h1 := h ++ [heapGet h a]
  let h2 := heapModify h1 c (fun d => dictSet d "entity_id" (.str node_id))
  let h3 := heapModify h2 c (fun d => d.map (fun p => (p.1, coerceVal p.2)))
  (h3, c)

/-- `prepare_edge_data` replayed on the heap: `dict(edge_attrs)`
allocates a copy at a fresh address, then the coercion loop and the
`weight` defaulting mutate the fresh address. -/
def prepareEdgeDataHeap (h : Heap) (a : Nat) : Heap × Nat :=
  let c := h.length
  let h1 := h ++ [heapGet h a]
  let h2 := heapModify h1 c (fun d => d.map (fun p => (p.1, coerceVal p.2)))
  let h3 := heapModify h2 c (fun d =>
    match dictLookup "weight" d with
    | some v =>
        match pyFloat v with
        | some q => dictSet d "weight" (.float q)
        | Option.none => dictSet d "weight" (.float 1)
    | Option.none => dictSet d "weight" (.float 1))
  (h3, c)

/-- A value in store-safe scalar form: string, integer, float or
boolean (what Neo4J accepts as a property value). -/
def isStoreScalar : PyVal → Bool
  | .str _ => true
  | .int _ => true
  | .float _ => true
  | .bool _ => true
  | _ => false

/-! ### Concrete instances used by counterexamples and witnesses -/

/-- An undirected graph whose edge sequence repeats the unordered pair
`(A, B)` in both orientations (as a GraphML multigraph loads). -/
def g3cex : Graph :=
  { nodes := [("A", []), ("B", [])]
    edges := [Edge.mk "A" "B" [], Edge.mk "B" "A" []]
    directed := false }

/-- The store holding exactly the correct migration result of `g3cex`:
its two nodes and the one canonicalized edge. -/
def s3cex : Store :=
  { counter := 2
    nodes := [SNode.mk 0 ["base"] [("entity_id", PyVal.str "A")],
              SNode.mk 1 ["base"] [("entity_id", PyVal.str "B")]]
    rels := [SRel.mk 0 1 "DIRECTED" []] }

/-- A run input whose store already holds an unrelated workspace node,
so that verification fails although every phase completes. -/
def inp1cex : RunInput :=
  { connectOk := true
    load := some { nodes := [("A", [])], edges := [], directed := false }
    clearFlag := false
    singleMode := true
    ws := "base"
    store := { counter := 1
               nodes := [SNode.mk 0 ["base"] [("entity_id", PyVal.str "Z")]]
               rels := [] } }

/-- A one-node graph on which batch and single mode are compared. -/
def g8cex : Graph :=
  { nodes := [("A", [])], edges := [], directed := false }

/-! ## Dictionary lemmas -/

theorem dictLookup_map (k : String) (f : PyVal → PyVal) :
    ∀ d : PyDict, dictLookup k (d.map (fun p => (p.1, f p.2))) = (dictLookup k d).map f := by
  intro d
  induction d with
  | nil => rfl
  | cons p rest ih =>
      obtain ⟨k', v⟩ := p
      by_cases hk : k' = k <;> simp [dictLookup, hk, ih]

theorem dictLookup_dictSet_self (d : PyDict) (k : String) (v : PyVal) :
    dictLookup k (dictSet d k v) = some v := by
  induction d with
  | nil => simp [dictSet, dictLookup]
  | cons p rest ih =>
      obtain ⟨k', v'⟩ := p
      by_cases hk : k' = k <;> simp [dictSet, dictLookup, hk, ih]

theorem dictLookup_dictSet_ne (d : PyDict) (k k' : String) (v : PyVal) (h : k' ≠ k) :
    dictLookup k' (dictSet d k v) = dictLookup k' d := by
  induction d with
  | nil =>
      simp only [dictSet, dictLookup]
      rw [if_neg (fun hh : k = k' => h hh.symm)]
  | cons p rest ih =>
      obtain ⟨k0, v0⟩ := p
      simp only [dictSet]
      by_cases h0 : k0 = k
      · rw [if_pos h0]
        simp only [dictLookup]
        have hne : k0 ≠ k' := fun hh => h (hh.symm.trans h0)
        rw [if_neg hne, if_neg hne]
      · rw [if_neg h0]
        simp only [dictLookup]
        by_cases h1 : k0 = k'
        · rw [if_pos h1, if_pos h1]
        · rw [if_neg h1, if_neg h1, ih]

theorem mem_dictSet (d : PyDict) (k : String) (v : PyVal) :
    ∀ p ∈ dictSet d k v, p = (k, v) ∨ p ∈ d := by
  induction d with
  | nil =>
      intro p hp
      simp only [dictSet, List.mem_singleton] at hp
      exact Or.inl hp
  | cons q rest ih =>
      obtain ⟨k0, v0⟩ := q
      intro p hp
      by_cases h0 : k0 = k
      · simp only [dictSet, if_pos h0, List.mem_cons] at hp
        rcases hp with h1 | h1
        · exact Or.inl (by rw [h1, h0])
        · exact Or.inr (List.mem_cons_of_mem _ h1)
      · simp only [dictSet, if_neg h0, List.mem_cons] at hp
        rcases hp with h1 | h1
        · exact Or.inr (by simp [h1])
        · rcases ih p h1 with h2 | h2
          · exact Or.inl h2
          · exact Or.inr (List.mem_cons_of_mem _ h2)

theorem coerceVal_isStr (v : PyVal) : ∃ s, coerceVal v = .str s := by
  cases v <;> exact ⟨_, rfl⟩

theorem isStoreScalar_coerceVal (v : PyVal) : isStoreScalar (coerceVal v) = true := by
  obtain ⟨s, hs⟩ := coerceVal_isStr v
  rw [hs]
  rfl

/-- Closed form of `prepare_edge_data`: coerce all values, then write
the `weight` entry with the parsed-or-defaulted float. -/
theorem prepare_edge_data_closed (attrs : PyDict) :
    prepare_edge_data attrs =
      dictSet (attrs.map (fun p => (p.1, coerceVal p.2))) "weight"
        (.float (((dictLookup "weight" attrs).map
          (fun v => (pyFloat (coerceVal v)).getD 1)).getD 1)) := by
  simp only [prepare_edge_data, dictLookup_map]
  rcases dictLookup "weight" attrs with _ | v
  · rfl
  · rcases h : pyFloat (coerceVal v) with _ | q <;> simp [h]

/-! ## C4 / C5: attribute coercion -/

/-- C4: for every input edge attribute mapping, the coerced edge record
has a `weight` field that is present and numeric; it is obtained by
float-parsing the (coerced) input value, and on absence or parse
failure it is `1.0`.  `prepare_edge_data` is a total Lean function, so
the coercion never raises and never fails the containing batch. -/
theorem edge_weight_present_and_numeric (attrs : PyDict) :
    (∃ q, dictLookup "weight" (prepare_edge_data attrs) = some (.float q)) ∧
    (dictLookup "weight" attrs = Option.none →
      dictLookup "weight" (prepare_edge_data attrs) = some (.float 1)) ∧
    (∀ v, dictLookup "weight" attrs = some v →
      dictLookup "weight" (prepare_edge_data attrs) =
        some (.float ((pyFloat (coerceVal v)).getD 1))) := by
  rw [prepare_edge_data_closed]
  refine ⟨⟨_, dictLookup_dictSet_self _ _ _⟩, fun hw => ?_, fun v hv => ?_⟩
  · rw [hw]
    exact dictLookup_dictSet_self _ _ _
  · rw [hv]
    exact dictLookup_dictSet_self _ _ _

/-- C4 witness: an edge attribute mapping without `weight` gets
`weight = 1.0`. -/
theorem edge_weight_present_and_numeric_witness :
    dictLookup "weight" (prepare_edge_data [("note", PyVal.none)]) =
      some (.float 1) :=
  (edge_weight_present_and_numeric [("note", PyVal.none)]).2.1 rfl

/-- C5: attribute coercion yields store-safe scalars only: every value
of a prepared node or edge record is a scalar; structured values become
their (deterministic, insertion-ordered) JSON string; `None` becomes
the explicit empty string, and no key is dropped (for nodes the key set
is that of the input plus `entity_id`; for edges it is that of the
input plus `weight`). -/
theorem coercion_produces_scalars (node_id : String) (attrs : PyDict) :
    (∀ p ∈ prepare_node_data node_id attrs, isStoreScalar p.2 = true) ∧
    (∀ k, (dictLookup k (prepare_node_data node_id attrs)).isSome =
      (dictLookup k (dictSet attrs "entity_id" (.str node_id))).isSome) ∧
    (∀ k, dictLookup k (dictSet attrs "entity_id" (.str node_id)) = some PyVal.none →
      dictLookup k (prepare_node_data node_id attrs) = some (.str "")) ∧
    (∀ k xs, dictLookup k (dictSet attrs "entity_id" (.str node_id)) = some (.list xs) →
      dictLookup k (prepare_node_data node_id attrs) = some (.str (pyJson (.list xs)))) ∧
    (∀ k kvs, dictLookup k (dictSet attrs "entity_id" (.str node_id)) = some (.dict kvs) →
      dictLookup k (prepare_node_data node_id attrs) = some (.str (pyJson (.dict kvs)))) ∧
    (∀ p ∈ prepare_edge_data attrs, isStoreScalar p.2 = true) ∧
    (∀ k, k ≠ "weight" → dictLookup k attrs = some PyVal.none →
      dictLookup k (prepare_edge_data attrs) = some (.str "")) ∧
    (∀ k, k ≠ "weight" →
      (dictLookup k (prepare_edge_data attrs)).isSome = (dictLookup k attrs).isSome) := by
  refine ⟨?_, ?_, ?_, ?_, ?_, ?_, ?_, ?_⟩
  · intro p hp
    unfold prepare_node_data at hp
    rcases List.mem_map.mp hp with ⟨q, _, hq⟩
    rw [← hq]
    exact isStoreScalar_coerceVal q.2
  · intro k
    unfold prepare_node_data
    rw [dictLookup_map]
    cases dictLookup k (dictSet attrs "entity_id" (.str node_id)) <;> rfl
  · intro k hk
    unfold prepare_node_data
    rw [dictLookup_map, hk]
    rfl
  · intro k xs hk
    unfold prepare_node_data
    rw [dictLookup_map, hk]
    rfl
  · intro k kvs hk
    unfold prepare_node_data
    rw [dictLookup_map, hk]
    rfl
  · intro p hp
    rw [prepare_edge_data_closed] at hp
    rcases mem_dictSet _ _ _ p hp with h | h
    · rw [h]
      rfl
    · rcases List.mem_map.mp h with ⟨q, _, hq⟩
      rw [← hq]
      exact isStoreScalar_coerceVal q.2
  · intro k hk hnone
    rw [prepare_edge_data_closed, dictLookup_dictSet_ne _ _ _ _ hk, dictLookup_map, hnone]
    rfl
  · intro k hk
    rw [prepare_edge_data_closed, dictLookup_dictSet_ne _ _ _ _ hk, dictLookup_map]
    cases dictLookup k attrs <;> rfl

/-- C5 witness: a `None`-valued node attribute is kept and becomes the
explicit empty string. -/
theorem coercion_produces_scalars_witness :
    dictLookup "x" (prepare_node_data "A" [("x", PyVal.none)]) = some (.str "") :=
  (coercion_produces_scalars "A" [("x", PyVal.none)]).2.2.1 "x" (by decide)

/-! ## C2: edge canonicalization -/

theorem charListLe_total : ∀ as bs : List Char, charListLe as bs = false → charListLe bs as = true := by
  intro as
  induction as with
  | nil =>
      intro bs h
      simp [charListLe] at h
  | cons a as ih =>
      intro bs h
      cases bs with
      | nil => rfl
      | cons b bs =>
          simp only [charListLe] at h ⊢
          by_cases h1 : a.toNat < b.toNat
          · rw [if_pos h1] at h
            exact absurd h (by simp)
          · rw [if_neg h1] at h
            by_cases h2 : b.toNat < a.toNat
            · rw [if_pos h2] at h
              rw [if_neg (Nat.lt_asymm h2), if_pos h2]
            · rw [if_neg h2] at h
              rw [if_neg h2, if_neg h1]
              exact ih bs h

theorem strLe_total (a b : String) (h : strLe a b = false) : strLe b a = true :=
  charListLe_total a.data b.data h

theorem normEdge_le (e : Edge) : strLe (normEdge e).source (normEdge e).target = true := by
  unfold normEdge
  by_cases h : strLe e.source e.target = true
  · rw [if_pos h]
    exact h
  · have h' : strLe e.source e.target = false := Bool.eq_false_iff.mpr h
    rw [if_neg h]
    exact strLe_total _ _ h'

theorem mem_dedupeEdges : ∀ (xs : List Edge) (seen : List (String × String)) (e : Edge),
    e ∈ dedupeEdges xs seen → e ∈ xs ∧ ekey e ∉ seen := by
  intro xs
  induction xs with
  | nil =>
      intro seen e h
      simp [dedupeEdges] at h
  | cons x rest ih =>
      intro seen e h
      simp only [dedupeEdges] at h
      by_cases hx : ekey x ∈ seen
      · rw [if_pos hx] at h
        rcases ih seen e h with ⟨h1, h2⟩
        exact ⟨List.mem_cons_of_mem _ h1, h2⟩
      · rw [if_neg hx] at h
        rcases List.mem_cons.mp h with h1 | h1
        · exact ⟨by simp [h1], fun hc => hx (by rw [← h1]; exact hc)⟩
        · rcases ih _ e h1 with ⟨h2, h3⟩
          exact ⟨List.mem_cons_of_mem _ h2, fun hc => h3 (List.mem_cons_of_mem _ hc)⟩

theorem dedupeEdges_key_mem : ∀ (xs : List Edge) (seen : List (String × String))
    (k : String × String),
    k ∈ (dedupeEdges xs seen).map ekey ↔ (k ∉ seen ∧ k ∈ xs.map ekey) := by
  intro xs
  induction xs with
  | nil =>
      intro seen k
      simp [dedupeEdges]
  | cons x rest ih =>
      intro seen k
      simp only [dedupeEdges]
      by_cases hx : ekey x ∈ seen
      · rw [if_pos hx, ih]
        simp only [List.map_cons, List.mem_cons]
        constructor
        · rintro ⟨h1, h2⟩
          exact ⟨h1, Or.inr h2⟩
        · rintro ⟨h1, h2 | h2⟩
          · exact absurd (h2 ▸ hx) h1
          · exact ⟨h1, h2⟩
      · rw [if_neg hx]
        simp only [List.map_cons, List.mem_cons, ih]
        constructor
        · rintro (h1 | ⟨h1, h2⟩)
          · exact ⟨fun hc => hx (h1 ▸ hc), Or.inl h1⟩
          · exact ⟨fun hc => h1 (Or.inr hc), Or.inr h2⟩
        · rintro ⟨h1, h2 | h2⟩
          · exact Or.inl h2
          · by_cases hk : k = ekey x
            · exact Or.inl hk
            · exact Or.inr ⟨fun hc => hc.elim hk h1, h2⟩

theorem dedupeEdges_keys_nodup : ∀ (xs : List Edge) (seen : List (String × String)),
    ((dedupeEdges xs seen).map ekey).Nodup := by
  intro xs
  induction xs with
  | nil =>
      intro seen
      simp [dedupeEdges]
  | cons x rest ih =>
      intro seen
      simp only [dedupeEdges]
      by_cases hx : ekey x ∈ seen
      · rw [if_pos hx]
        exact ih seen
      · rw [if_neg hx]
        simp only [List.map_cons, List.nodup_cons]
        refine ⟨fun hc => ?_, ih _⟩
        exact ((dedupeEdges_key_mem rest (ekey x :: seen) (ekey x)).mp hc).1
          (List.mem_cons_self _ _)

theorem dedupeEdges_find : ∀ (xs : List Edge) (seen : List (String × String)) (e : Edge),
    e ∈ dedupeEdges xs seen →
    xs.find? (fun x => decide (ekey x = ekey e)) = some e := by
  intro xs
  induction xs with
  | nil =>
      intro seen e h
      simp [dedupeEdges] at h
  | cons x rest ih =>
      intro seen e h
      simp only [dedupeEdges] at h
      by_cases hx : ekey x ∈ seen
      · rw [if_pos hx] at h
        have hne : ekey x ≠ ekey e := by
          intro hc
          exact (mem_dedupeEdges rest seen e h).2 (hc ▸ hx)
        rw [List.find?_cons_of_neg _ (by simp [hne])]
        exact ih seen e h
      · rw [if_neg hx] at h
        rcases List.mem_cons.mp h with h1 | h1
        · rw [h1]
          exact List.find?_cons_of_pos _ (by simp)
        · have h2 := mem_dedupeEdges rest (ekey x :: seen) e h1
          have hne : ekey x ≠ ekey e := fun hc => h2.2 (hc ▸ List.mem_cons_self _ _)
          rw [List.find?_cons_of_neg _ (by simp [hne])]
          exact ih _ e h1

/-- C2: for an undirected graph, canonicalization reorders every edge
so that `source <= target` in string order, leaves at most one record
per unordered endpoint pair (the key list is duplicate-free), keeps
exactly the unordered pairs occurring in the input, and keeps, for each
pair, the first occurrence (attributes included). -/
theorem edge_canonicalization (es : List Edge) :
    (∀ e ∈ canonicalizeEdges es, strLe e.source e.target = true) ∧
    ((canonicalizeEdges es).map ekey).Nodup ∧
    (∀ k, k ∈ (canonicalizeEdges es).map ekey ↔
      k ∈ es.map (fun e => ekey (normEdge e))) ∧
    (∀ e ∈ canonicalizeEdges es,
      (es.map normEdge).find? (fun x => decide (ekey x = ekey e)) = some e) := by
  refine ⟨?_, dedupeEdges_keys_nodup _ _, ?_, ?_⟩
  · intro e he
    have h1 := (mem_dedupeEdges _ _ e he).1
    rcases List.mem_map.mp h1 with ⟨e0, _, he0⟩
    rw [← he0]
    exact normEdge_le e0
  · intro k
    rw [canonicalizeEdges, dedupeEdges_key_mem (es.map normEdge) [] k, List.map_map]
    simp [Function.comp]
  · intro e he
    exact dedupeEdges_find _ _ e he

/-- C2 witness: on the input `[(B, A), (A, B)]` the canonicalized
output contains the single reordered edge `(A, B)` carrying the first
occurrence's attributes, and its endpoints satisfy `source <= target`. -/
theorem edge_canonicalization_witness :
    strLe (Edge.mk "A" "B" [("k", PyVal.str "x")]).source
      (Edge.mk "A" "B" [("k", PyVal.str "x")]).target = true :=
  (edge_canonicalization
      [Edge.mk "B" "A" [("k", PyVal.str "x")], Edge.mk "A" "B" [("k", PyVal.str "y")]]).1
    (Edge.mk "A" "B" [("k", PyVal.str "x")]) (by decide)

/-! ## C3: verification -/

theorem dedupeEdges_eq_self : ∀ (xs : List Edge) (seen : List (String × String)),
    (xs.map ekey).Nodup → (∀ k ∈ xs.map ekey, k ∉ seen) → dedupeEdges xs seen = xs := by
  intro xs
  induction xs with
  | nil =>
      intro seen _ _
      rfl
  | cons x rest ih =>
      intro seen hnd hdisj
      simp only [List.map_cons, List.nodup_cons] at hnd
      have hx : ekey x ∉ seen := hdisj (ekey x) (by simp)
      simp only [dedupeEdges, if_neg hx]
      congr 1
      refine ih _ hnd.2 (fun k hk hc => ?_)
      rcases List.mem_cons.mp hc with h1 | h1
      · exact hnd.1 (h1 ▸ hk)
      · exact hdisj k (List.mem_cons_of_mem _ hk) h1

theorem canonicalizeEdges_length_eq (es : List Edge)
    (h : (es.map (fun e => ekey (normEdge e))).Nodup) :
    (canonicalizeEdges es).length = es.length := by
  have hnd : ((es.map normEdge).map ekey).Nodup := by
    rw [List.map_map]
    simpa [Function.comp] using h
  rw [canonicalizeEdges, dedupeEdges_eq_self (es.map normEdge) [] hnd (by simp),
    List.length_map]

/-- C3 (amended): the verifier reports success exactly when the target
node count equals the loaded node count, the target `DIRECTED`
relationship count equals the RAW loaded edge count
(`number_of_edges()`), and no `entity_id` is shared by two workspace
nodes; the raw count coincides with the canonicalized count whenever no
unordered endpoint pair repeats in the edge sequence.  In this
embedding `verify_migration` is a function of the store that returns
only a verdict: the three queries it runs are reads. -/
theorem verify_migration_is_count_comparison (ws : String) (s : Store) (g : Graph) :
    (verify_migration ws s g = true ↔
      (wsNodeCount ws s = g.nodes.length ∧ wsEdgeCount ws s = g.edges.length ∧
        duplicateNodeCount ws s = 0)) ∧
    ((g.edges.map (fun e => ekey (normEdge e))).Nodup →
      (canonicalizeEdges g.edges).length = g.edges.length) := by
  constructor
  · simp [verify_migration, and_assoc]
  · exact canonicalizeEdges_length_eq g.edges

/-- C3 witness: on a duplicate-free edge sequence the canonicalized
length agrees with the raw length, by the amended theorem. -/
theorem verify_migration_is_count_comparison_witness :
    (canonicalizeEdges [Edge.mk "A" "B" []]).length = [Edge.mk "A" "B" []].length :=
  (verify_migration_is_count_comparison "base" (Store.mk 0 [] [])
      (Graph.mk [] [Edge.mk "A" "B" []] false)).2 (by decide)

/-- C3 counterexample: on `g3cex` (the pair `(A, B)` loaded in both
orientations) and the store `s3cex` holding exactly the correct
migration result, the claim's criterion — canonicalized edge count —
holds, yet the verifier reports failure: it compares against the raw
`number_of_edges()` count. -/
theorem verify_migration_canonical_count_cex :
    (wsNodeCount "base" s3cex = g3cex.nodes.length ∧
     wsEdgeCount "base" s3cex = (canonicalizeEdges g3cex.edges).length ∧
     duplicateNodeCount "base" s3cex = 0) ∧
    verify_migration "base" s3cex g3cex = false := by decide

/-! ## C1: exit codes -/

/-- C1 (amended): the process exit code reflects only whether an
exception escaped `migrate` — it is `0` exactly when the pipeline ran
to completion, which happens exactly when connection and load succeed;
in particular a run whose verification verdict is `false` still exits
`0` (the verdict is printed and discarded). -/
theorem exit_code_ignores_verification (inp : RunInput) :
    (exitCode inp = 0 ↔ (runPipeline inp).isSome = true) ∧
    (∀ s b, runPipeline inp = some (s, b) → exitCode inp = 0) ∧
    ((runPipeline inp).isSome = true ↔
      (inp.connectOk = true ∧ inp.load.isSome = true)) := by
  refine ⟨?_, ?_, ?_⟩
  · unfold exitCode
    by_cases h : (runPipeline inp).isSome = true
    · simp [h]
    · simp [h]
  · intro s b h
    unfold exitCode
    rw [h]
    rfl
  · unfold runPipeline
    by_cases hc : inp.connectOk = true
    · rcases hl : inp.load with _ | g <;> simp [hc, hl]
    · simp [hc]

/-- C1 witness: the concrete failing-verification run exits `0`
(by the amended theorem, since its pipeline completes). -/
theorem exit_code_ignores_verification_witness :
    exitCode inp1cex = 0 :=
  (exit_code_ignores_verification inp1cex).1.mpr (by decide)

/-- C1 counterexample: a run in which every phase completes but
verification reports failure (the workspace held an unrelated node, so
the node counts mismatch) terminates with exit code `0`, not a
non-zero code. -/
theorem exit_code_zero_on_verification_failure_cex :
    (runPipeline inp1cex).map Prod.snd = some false ∧ exitCode inp1cex = 0 := by decide

/-! ## C6: connection retry -/

/-- C6 counterexample: with a first connection attempt failing and a
second attempt that would succeed, `connect` raises immediately — no
wait-and-retry loop exists. -/
theorem connect_no_retry_cex :
    connect [false, true] = Except.error "Failed to connect to Neo4J" := rfl

/-- C6 (amended): `connect` makes exactly one attempt: its outcome
depends only on the first element of the attempt-outcome stream, a
first failure is immediately fatal (the exception aborts the run with a
non-zero exit), and no retry of any later attempt happens. -/
theorem connect_single_attempt (rest : List Bool) (inp : RunInput) :
    connect (false :: rest) = Except.error "Failed to connect to Neo4J" ∧
    connect (true :: rest) = Except.ok 1 ∧
    (inp.connectOk = false → runPipeline inp = Option.none ∧ exitCode inp = 1) := by
  refine ⟨rfl, rfl, fun h => ?_⟩
  have hp : runPipeline inp = Option.none := by
    unfold runPipeline
    rw [if_neg (by simp [h])]
  refine ⟨hp, ?_⟩
  unfold exitCode
  rw [hp]
  rfl

/-- C6 witness: a run whose one connection attempt fails aborts with
exit code `1`. -/
theorem connect_single_attempt_witness :
    runPipeline (RunInput.mk false Option.none false false "base" (Store.mk 0 [] [])) =
      Option.none ∧
    exitCode (RunInput.mk false Option.none false false "base" (Store.mk 0 [] [])) = 1 :=
  (connect_single_attempt []
    (RunInput.mk false Option.none false false "base" (Store.mk 0 [] []))).2.2 rfl

/-! ## C8: batch vs single mode -/

theorem chunks_flatten (b : Nat) (l : List α) : (chunks (b + 1) l).flatten = l := by
  have main : ∀ (n : Nat) (l : List α), l.length = n → (chunks (b + 1) l).flatten = l := by
    intro n
    induction n using Nat.strong_induction_on with
    | _ n ih =>
        intro l hn
        cases l with
        | nil => simp [chunks]
        | cons x rest =>
            have hlen : (rest.drop b).length < n := by
              rw [← hn]
              simp only [List.length_cons, List.length_drop]
              exact Nat.lt_succ_of_le (Nat.sub_le _ _)
            simp only [chunks, List.flatten_cons, List.take_succ_cons]
            rw [ih _ hlen (rest.drop b) rfl, List.cons_append, List.take_append_drop]
  exact main l.length l rfl

theorem foldl_chunks (bs : Nat) (hbs : 0 < bs) (l : List α) (f : β → α → β) (s : β) :
    (chunks bs l).foldl (fun st batch => batch.foldl f st) s = l.foldl f s := by
  obtain ⟨b, rfl⟩ : ∃ b, bs = b + 1 := ⟨bs - 1, (Nat.succ_pred_eq_of_pos hbs).symm⟩
  conv_rhs => rw [← chunks_flatten b l]
  rw [List.foldl_flatten]

/-- C8 counterexample: on a one-node graph and an empty store, batch
mode and single mode produce different stores — the batch query's data
records carry the extra `_entity_type` property, the single-mode
records do not. -/
theorem modes_differ_cex :
    migrate_nodes "base" 100 g8cex (Store.mk 0 [] []) ≠
      migrate_nodes_single "base" g8cex (Store.mk 0 [] []) := by
  unfold migrate_nodes
  rw [foldl_chunks 100 (by decide) g8cex.nodes]
  decide

/-- C8 (amended): the migrated result is independent of the batch size
used for chunking, and edge migration is identical in batch and single
mode; node migration agrees between the modes on identities (the merge
key) and on all prepared properties, except that every batch-mode
record additionally carries the `_entity_type` entry
(`entity_type` value, defaulting to `"Entity"`). -/
theorem modes_agree_up_to_entity_type (ws : String) (g : Graph) (s : Store)
    (bs bs' : Nat) (hbs : 0 < bs) (hbs' : 0 < bs') :
    migrate_nodes ws bs g s = migrate_nodes ws bs' g s ∧
    migrate_edges ws bs g s = migrate_edges ws bs' g s ∧
    migrate_edges ws bs g s = migrate_edges_single ws g s ∧
    migrate_nodes ws bs g s =
      g.nodes.foldl (applyNodeItem ws (fun n => batchNodeRecord n.1 n.2)) s ∧
    migrate_nodes_single ws g s =
      g.nodes.foldl (applyNodeItem ws (fun n => prepare_node_data n.1 n.2)) s := by
  refine ⟨?_, ?_, ?_, ?_, rfl⟩
  · unfold migrate_nodes
    rw [foldl_chunks _ hbs, foldl_chunks _ hbs']
  · unfold migrate_edges
    rw [foldl_chunks _ hbs, foldl_chunks _ hbs']
  · unfold migrate_edges migrate_edges_single
    rw [foldl_chunks _ hbs]
  · unfold migrate_nodes
    rw [foldl_chunks _ hbs]

/-- C8 witness: batch sizes 1 and 2 migrate `g8cex` identically. -/
theorem modes_agree_up_to_entity_type_witness :
    migrate_nodes "base" 1 g8cex (Store.mk 0 [] []) =
      migrate_nodes "base" 2 g8cex (Store.mk 0 [] []) :=
  (modes_agree_up_to_entity_type "base" g8cex (Store.mk 0 [] []) 1 2
    (by decide) (by decide)).1

/-! ## C9: edge endpoints must exist -/

theorem matchesWsId_spec (ws id : String) (n : SNode) (h : matchesWsId ws id n = true) :
    ws ∈ n.labels ∧ dictLookup "entity_id" n.props = some (.str id) := by
  simpa [matchesWsId] using h

theorem findWsNode_some (s : Store) (ws id : String) (a : Nat)
    (h : findWsNode s ws id = some a) :
    ∃ n ∈ s.nodes, n.nid = a ∧ ws ∈ n.labels := by
  unfold findWsNode at h
  rcases hf : s.nodes.find? (matchesWsId ws id) with _ | n
  · rw [hf] at h
    simp at h
  · rw [hf] at h
    simp only [Option.map] at h
    have hna : n.nid = a := by simpa using h
    exact ⟨n, List.mem_of_find?_eq_some hf, hna,
      (matchesWsId_spec ws id n (List.find?_some hf)).1⟩

theorem applyEdgeItem_nodes (ws : String) (s : Store) (e : Edge) :
    (applyEdgeItem ws s e).nodes = s.nodes ∧ (applyEdgeItem ws s e).counter = s.counter := by
  unfold applyEdgeItem
  rcases findWsNode s ws e.source with _ | a
  · exact ⟨rfl, rfl⟩
  rcases findWsNode s ws e.target with _ | b
  · exact ⟨rfl, rfl⟩
  · show (mergeRel a b (prepare_edge_data e.attrs) s).nodes = s.nodes ∧
      (mergeRel a b (prepare_edge_data e.attrs) s).counter = s.counter
    unfold mergeRel
    split <;> exact ⟨rfl, rfl⟩

theorem applyEdgeItem_missing (ws : String) (s : Store) (e : Edge)
    (h : findWsNode s ws e.source = Option.none ∨ findWsNode s ws e.target = Option.none) :
    applyEdgeItem ws s e = s := by
  unfold applyEdgeItem
  rcases ha : findWsNode s ws e.source with _ | a
  · rfl
  rcases hb : findWsNode s ws e.target with _ | b
  · rfl
  · rcases h with h | h
    · rw [ha] at h
      exact absurd h (by simp)
    · rw [hb] at h
      exact absurd h (by simp)

theorem applyEdgeItem_rels (ws : String) (s : Store) (e : Edge) :
    ∀ r ∈ (applyEdgeItem ws s e).rels,
      (∃ r0 ∈ s.rels, r0.src = r.src ∧ r0.tgt = r.tgt) ∨
      ((∃ a ∈ s.nodes, a.nid = r.src ∧ ws ∈ a.labels) ∧
       (∃ b ∈ s.nodes, b.nid = r.tgt ∧ ws ∈ b.labels)) := by
  intro r
  unfold applyEdgeItem
  rcases ha : findWsNode s ws e.source with _ | a
  · intro hr
    exact Or.inl ⟨r, hr, rfl, rfl⟩
  rcases hb : findWsNode s ws e.target with _ | b
  · intro hr
    exact Or.inl ⟨r, hr, rfl, rfl⟩
  · show r ∈ (mergeRel a b (prepare_edge_data e.attrs) s).rels → _
    unfold mergeRel
    split
    next r0 hf =>
      intro hr
      rcases List.mem_map.mp hr with ⟨r1, hr1, hr1e⟩
      by_cases hcase : r1 = r0
      · rw [if_pos hcase] at hr1e
        refine Or.inl ⟨r0, List.mem_of_find?_eq_some hf, ?_, ?_⟩ <;>
          rw [← hr1e] <;> simp [hcase]
      · rw [if_neg hcase] at hr1e
        exact Or.inl ⟨r1, hr1, by rw [hr1e], by rw [hr1e]⟩
    next hf =>
      intro hr
      rcases List.mem_append.mp hr with h1 | h1
      · exact Or.inl ⟨r, h1, rfl, rfl⟩
      · have hrv : r = SRel.mk a b "DIRECTED" (prepare_edge_data e.attrs) := by
          simpa using h1
        subst hrv
        exact Or.inr ⟨findWsNode_some s ws e.source a ha, findWsNode_some s ws e.target b hb⟩

theorem foldl_applyEdgeItem_nodes (ws : String) :
    ∀ (es : List Edge) (s : Store),
      (es.foldl (applyEdgeItem ws) s).nodes = s.nodes ∧
      (es.foldl (applyEdgeItem ws) s).counter = s.counter := by
  intro es
  induction es with
  | nil => exact fun s => ⟨rfl, rfl⟩
  | cons e rest ih =>
      intro s
      simp only [List.foldl_cons]
      rcases ih (applyEdgeItem ws s e) with ⟨h1, h2⟩
      rcases applyEdgeItem_nodes ws s e with ⟨h3, h4⟩
      exact ⟨h1.trans h3, h2.trans h4⟩

theorem foldl_applyEdgeItem_rels (ws : String) :
    ∀ (es : List Edge) (s : Store),
      ∀ r ∈ (es.foldl (applyEdgeItem ws) s).rels,
        (∃ r0 ∈ s.rels, r0.src = r.src ∧ r0.tgt = r.tgt) ∨
        ((∃ a ∈ s.nodes, a.nid = r.src ∧ ws ∈ a.labels) ∧
         (∃ b ∈ s.nodes, b.nid = r.tgt ∧ ws ∈ b.labels)) := by
  intro es
  induction es with
  | nil =>
      intro s r hr
      exact Or.inl ⟨r, hr, rfl, rfl⟩
  | cons e rest ih =>
      intro s r hr
      simp only [List.foldl_cons] at hr
      rcases ih (applyEdgeItem ws s e) r hr with ⟨r0, hr0, h2, h3⟩ | ⟨hA, hB⟩
      · rcases applyEdgeItem_rels ws s e r0 hr0 with ⟨r1, hr1, h5, h6⟩ | ⟨hA, hB⟩
        · exact Or.inl ⟨r1, hr1, h5.trans h2, h6.trans h3⟩
        · exact Or.inr ⟨h2 ▸ hA, h3 ▸ hB⟩
      · rw [(applyEdgeItem_nodes ws s e).1] at hA hB
        exact Or.inr ⟨hA, hB⟩

/-- C9: the edge writer never creates or deletes nodes; an edge row
whose source or target id matches no workspace node leaves the store
completely unchanged (no relationship, no auto-created bare node); and
every relationship present after the edge phase either already existed
under the same endpoint pair or connects two workspace nodes that
existed before the phase — so no written edge ever references a node
outside the matched workspace node set. -/
theorem edge_writer_requires_existing_endpoints (ws : String) (s : Store) (es : List Edge) :
    (∀ (s0 : Store) (e : Edge),
      (findWsNode s0 ws e.source = Option.none ∨ findWsNode s0 ws e.target = Option.none) →
      applyEdgeItem ws s0 e = s0) ∧
    (es.foldl (applyEdgeItem ws) s).nodes = s.nodes ∧
    (es.foldl (applyEdgeItem ws) s).counter = s.counter ∧
    (∀ r ∈ (es.foldl (applyEdgeItem ws) s).rels,
      (∃ r0 ∈ s.rels, r0.src = r.src ∧ r0.tgt = r.tgt) ∨
      ((∃ a ∈ s.nodes, a.nid = r.src ∧ ws ∈ a.labels) ∧
       (∃ b ∈ s.nodes, b.nid = r.tgt ∧ ws ∈ b.labels))) :=
  ⟨fun s0 e h => applyEdgeItem_missing ws s0 e h,
   (foldl_applyEdgeItem_nodes ws es s).1,
   (foldl_applyEdgeItem_nodes ws es s).2,
   foldl_applyEdgeItem_rels ws es s⟩

/-- C9 witness: on the empty store the edge `(A, B)` writes nothing —
no relationship and no bare endpoint node is created. -/
theorem edge_writer_requires_existing_endpoints_witness :
    applyEdgeItem "base" (Store.mk 0 [] []) (Edge.mk "A" "B" []) = Store.mk 0 [] [] :=
  (edge_writer_requires_existing_endpoints "base" (Store.mk 0 [] []) []).1
    (Store.mk 0 [] []) (Edge.mk "A" "B" []) (Or.inl rfl)

/-! ## C10: the preparation functions do not mutate their input -/

theorem listGetD_append_lt : ∀ (l : List α) (x d : α) (i : Nat), i < l.length →
    (l ++ [x]).getD i d = l.getD i d := by
  intro l
  induction l with
  | nil =>
      intro x d i h
      exact absurd h (Nat.not_lt_zero i)
  | cons y rest ih =>
      intro x d i h
      cases i with
      | zero => rfl
      | succ j =>
          simp only [List.cons_append, List.getD_cons_succ]
          exact ih x d j (Nat.lt_of_succ_lt_succ h)

theorem listGetD_append_len : ∀ (l : List α) (x d : α),
    (l ++ [x]).getD l.length d = x := by
  intro l
  induction l with
  | nil => intro x d; rfl
  | cons y rest ih =>
      intro x d
      simp only [List.cons_append, List.length_cons, List.getD_cons_succ]
      exact ih x d

theorem listGetD_set_ne : ∀ (l : List α) (i j : Nat) (v d : α), i ≠ j →
    (l.set i v).getD j d = l.getD j d := by
  intro l
  induction l with
  | nil => intro i j v d _; rfl
  | cons y rest ih =>
      intro i j v d hij
      cases i with
      | zero =>
          cases j with
          | zero => exact absurd rfl hij
          | succ j' => rfl
      | succ i' =>
          cases j with
          | zero => rfl
          | succ j' =>
              simp only [List.set_cons_succ, List.getD_cons_succ]
              exact ih i' j' v d (fun hc => hij (by rw [hc]))

theorem listGetD_set_self : ∀ (l : List α) (i : Nat) (v d : α), i < l.length →
    (l.set i v).getD i d = v := by
  intro l
  induction l with
  | nil =>
      intro i v d h
      exact absurd h (Nat.not_lt_zero i)
  | cons y rest ih =>
      intro i v d h
      cases i with
      | zero => rfl
      | succ j =>
          simp only [List.set_cons_succ, List.getD_cons_succ]
          exact ih j v d (Nat.lt_of_succ_lt_succ h)

/-- C10: replayed against the heap, `prepare_node_data` and
`prepare_edge_data` mutate only the freshly allocated copy produced by
`dict(...)`: the caller's attribute dict at address `a` is unchanged by
the call, and the dict at the returned address holds exactly the value
of the pure preparation function applied to the input dict. -/
theorem prepare_functions_do_not_mutate_input (h : Heap) (a : Nat) (node_id : String)
    (ha : a < h.length) :
    heapGet (prepareNodeDataHeap h a node_id).1 a = heapGet h a ∧
    heapGet (prepareNodeDataHeap h a node_id).1 (prepareNodeDataHeap h a node_id).2 =
      prepare_node_data node_id (heapGet h a) ∧
    heapGet (prepareEdgeDataHeap h a).1 a = heapGet h a ∧
    heapGet (prepareEdgeDataHeap h a).1 (prepareEdgeDataHeap h a).2 =
      prepare_edge_data (heapGet h a) := by
  have hac : a ≠ h.length := Nat.ne_of_lt ha
  have hca : h.length ≠ a := fun hh => hac hh.symm
  have hlen1 : h.length < (h ++ [h.getD a []]).length := by
    simp
  have hlen2 : ∀ v : PyDict, h.length < ((h ++ [h.getD a []]).set h.length v).length := by
    intro v
    simp
  have hbase : (h ++ [h.getD a []]).getD h.length [] = h.getD a [] :=
    listGetD_append_len h _ _
  refine ⟨?_, ?_, ?_, ?_⟩
  all_goals simp only [prepareNodeDataHeap, prepareEdgeDataHeap, heapModify, heapGet]
  · rw [listGetD_set_ne _ _ _ _ _ hca, listGetD_set_ne _ _ _ _ _ hca]
    exact listGetD_append_lt h _ _ a ha
  · rw [listGetD_set_self _ _ _ _ (hlen2 _), listGetD_set_self _ _ _ _ hlen1, hbase]
    rfl
  · rw [listGetD_set_ne _ _ _ _ _ hca, listGetD_set_ne _ _ _ _ _ hca]
    exact listGetD_append_lt h _ _ a ha
  · rw [listGetD_set_self _ _ _ _ (hlen2 _), listGetD_set_self _ _ _ _ hlen1, hbase]
    rfl

/-- C10 witness: a concrete one-dict heap is unchanged at the input
address by the node-preparation call. -/
theorem prepare_functions_do_not_mutate_input_witness :
    heapGet (prepareNodeDataHeap [[("x", PyVal.none)]] 0 "A").1 0 = [("x", PyVal.none)] :=
  (prepare_functions_do_not_mutate_input [[("x", PyVal.none)]] 0 "A" (by decide)).1

end Migrate
